import Mathlib

/-!
Shallow embedding of `G1EvacFailureRegions::record`
(src/openjdk-22/src/hotspot/share/gc/g1/g1EvacFailureRegions.inline.hpp)
and of the spec-described lifecycle operations of the evacuation-failure
region tracker.

Concurrency is modelled by linearization: every shared-memory operation the
source performs (`par_set_bit`, `Atomic::fetch_then_add`) is a single atomic
instruction, the slot write after `fetch_then_add` touches an index owned
exclusively by this caller, and the notification targets a region object
owned exclusively by the winning caller, so the observable behaviour of any
concurrent execution of `record` calls equals some sequential interleaving
of whole `record` calls.  Concurrent scenarios are therefore quantified over
arbitrary call sequences (`List ℕ` of region indices).
-/

/-- The state of `G1EvacFailureRegions`: the concurrent presence bitmap
`_regions_failed_evacuation`, the atomic cursor
`_evac_failure_regions_cur_length`, the pre-sized append-log array
`_evac_failure_regions` (a slot is `none` while unwritten), plus the trace of
`note_evacuation_failure` notifications delivered to region objects (region
objects themselves are external collaborators; only the notification side
effect is observable in this model). -/
@[ext]
structure G1EvacFailureRegions where
  regions_failed_evacuation : ℕ → Bool
  evac_failure_regions_cur_length : ℕ
  evac_failure_regions : ℕ → Option ℕ
  notified : List ℕ

/-- `CHeapBitMap::par_set_bit(i, memory_order_relaxed)`: atomic test-and-set
of bit `i`; returns whether this call performed the 0→1 transition, together
with the updated bitmap. -/
def par_set_bit (bm : ℕ → Bool) (i : ℕ) : Bool × (ℕ → Bool) :=
  (!bm i, fun j => if j = i then true else bm j)

/-- `Atomic::fetch_then_add(&ctr, v)`: returns the pre-increment value and
the incremented counter. -/
def fetch_then_add (ctr : ℕ) (v : ℕ) : ℕ × ℕ :=
  (ctr, ctr + v)

/-- `G1EvacFailureRegions::record(uint region_idx)`, translated line by line
from g1EvacFailureRegions.inline.hpp: test-and-set the presence bit; if this
call won, fetch-then-add the cursor, store `region_idx` at the pre-increment
offset, and invoke `note_evacuation_failure` on the region object (recorded
in the `notified` trace); return the claim result. -/
def G1EvacFailureRegions.record (s : G1EvacFailureRegions) (region_idx : ℕ) :
    Bool × G1EvacFailureRegions :=
  let p := par_set_bit s.regions_failed_evacuation region_idx
  let success := p.1
  let s1 : G1EvacFailureRegions := { s with regions_failed_evacuation := p.2 }
  if success then
    let q := fetch_then_add s1.evac_failure_regions_cur_length 1
    let offset := q.1
    let s2 : G1EvacFailureRegions :=
      { s1 with
        evac_failure_regions_cur_length := q.2
        evac_failure_regions :=
          fun i => if i = offset then some region_idx else s1.evac_failure_regions i
        notified := s1.notified ++ [region_idx] }
    (success, s2)
  else
    (success, s1)

/-- Modelled from the spec: the tracker's `reset()` (its declaration is not
among the provided sources, only `record` is) clears all presence-bitmap bits
and sets the append-log cursor back to zero, per the reset contracts of
spec sections 4.1 and 4.2.  The spec does not say the pre-sized slot storage
is cleared, so slots are left as they are. -/
def G1EvacFailureRegions.reset (s : G1EvacFailureRegions) : G1EvacFailureRegions :=
  { s with
    regions_failed_evacuation := fun _ => false
    evac_failure_regions_cur_length := 0 }

/-- Modelled from the spec: `count()` (declaration not among the provided
sources) returns the append-log length. -/
def G1EvacFailureRegions.count (s : G1EvacFailureRegions) : ℕ :=
  s.evac_failure_regions_cur_length

/-- Modelled from the spec: `has_failed_regions()` (declaration not among the
provided sources) is `length > 0`. -/
def G1EvacFailureRegions.has_failed_regions (s : G1EvacFailureRegions) : Bool :=
  decide (0 < s.evac_failure_regions_cur_length)

/-- The tracker at the start of a Recording phase: all bits clear, cursor
zero, no slot written, no notification delivered. -/
def initialState : G1EvacFailureRegions :=
  { regions_failed_evacuation := fun _ => false
    evac_failure_regions_cur_length := 0
    evac_failure_regions := fun _ => none
    notified := [] }

/-- Run a sequence of `record` calls (one linearization order of a set of
possibly concurrent calls), returning the final tracker state. -/
def runRecord : G1EvacFailureRegions → List ℕ → G1EvacFailureRegions
  | s, [] => s
  | s, r :: rest => runRecord (s.record r).2 rest

/-- Run a sequence of `record` calls, returning each call's region index
paired with its return value, in call order. -/
def recordResults : G1EvacFailureRegions → List ℕ → List (ℕ × Bool)
  | _, [] => []
  | s, r :: rest => (r, (s.record r).1) :: recordResults (s.record r).2 rest

/-- The failed-region sequence exposed to the post-pause consumer: the
append-log entries at indices `[0, length)` (an unwritten slot reads 0). -/
def failedSeq (s : G1EvacFailureRegions) : List ℕ :=
  (List.range s.evac_failure_regions_cur_length).map
    fun i => (s.evac_failure_regions i).getD 0

-- Per-call characterization lemmas -------------------------------------------

theorem record_fst (s : G1EvacFailureRegions) (r : ℕ) :
    (s.record r).1 = !s.regions_failed_evacuation r := by
  unfold G1EvacFailureRegions.record par_set_bit
  by_cases h : s.regions_failed_evacuation r <;> simp [h]

theorem record_bm (s : G1EvacFailureRegions) (r j : ℕ) :
    (s.record r).2.regions_failed_evacuation j =
      if j = r then true else s.regions_failed_evacuation j := by
  unfold G1EvacFailureRegions.record par_set_bit
  by_cases h : s.regions_failed_evacuation r <;> simp [h]

theorem record_len (s : G1EvacFailureRegions) (r : ℕ) :
    (s.record r).2.evac_failure_regions_cur_length =
      if s.regions_failed_evacuation r then s.evac_failure_regions_cur_length
      else s.evac_failure_regions_cur_length + 1 := by
  unfold G1EvacFailureRegions.record par_set_bit fetch_then_add
  by_cases h : s.regions_failed_evacuation r <;> simp [h]

theorem record_slots (s : G1EvacFailureRegions) (r : ℕ) :
    (s.record r).2.evac_failure_regions =
      if s.regions_failed_evacuation r then s.evac_failure_regions
      else fun i =>
        if i = s.evac_failure_regions_cur_length then some r
        else s.evac_failure_regions i := by
  unfold G1EvacFailureRegions.record par_set_bit fetch_then_add
  by_cases h : s.regions_failed_evacuation r <;> simp [h]

theorem record_notified (s : G1EvacFailureRegions) (r : ℕ) :
    (s.record r).2.notified =
      if s.regions_failed_evacuation r then s.notified else s.notified ++ [r] := by
  unfold G1EvacFailureRegions.record par_set_bit
  by_cases h : s.regions_failed_evacuation r <;> simp [h]

/-- When the presence bit is already set, `record` leaves the state entirely
unchanged (setting an already-set bit is the identity). -/
theorem record_lose_state (s : G1EvacFailureRegions) (r : ℕ)
    (h : s.regions_failed_evacuation r = true) : (s.record r).2 = s := by
  ext1
  · funext j
    rw [record_bm]
    by_cases hj : j = r <;> simp [hj, h]
  · rw [record_len, h]
    simp
  · rw [record_slots, h]
    simp
  · rw [record_notified, h]
    simp

-- Reachable-state invariant ---------------------------------------------------

/-- Invariant of every state reachable by `record` calls from the start of a
Recording phase: the cursor equals the number of notified regions, the
written append-log slots are exactly the notified regions in order, no
region was notified twice, and a presence bit is set exactly for the
notified regions. -/
structure TrackerInv (s : G1EvacFailureRegions) : Prop where
  len_eq : s.evac_failure_regions_cur_length = s.notified.length
  slots : ∀ i, s.evac_failure_regions i = s.notified[i]?
  nodup : s.notified.Nodup
  bits : ∀ r, s.regions_failed_evacuation r = true ↔ r ∈ s.notified

theorem trackerInv_initialState : TrackerInv initialState := by
  refine ⟨rfl, ?_, List.nodup_nil, ?_⟩
  · intro i
    simp [initialState]
  · intro r
    simp [initialState]

theorem trackerInv_record (s : G1EvacFailureRegions) (r : ℕ) (h : TrackerInv s) :
    TrackerInv (s.record r).2 := by
  by_cases hb : s.regions_failed_evacuation r
  · rw [record_lose_state s r hb]
    exact h
  · have hbm : s.regions_failed_evacuation r = false := by simpa using hb
    have hr : r ∉ s.notified := fun hm => hb ((h.bits r).mpr hm)
    refine ⟨?_, ?_, ?_, ?_⟩
    · rw [record_len, record_notified, hbm]
      simp [h.len_eq]
    · intro i
      have hlen := h.len_eq
      rw [record_slots, record_notified, hbm]
      simp only [Bool.false_eq_true, if_false]
      rcases lt_trichotomy i s.notified.length with hi | hi | hi
      · rw [if_neg (by omega), h.slots i, List.getElem?_append_left hi]
      · rw [if_pos (by omega), hi, List.getElem?_concat_length]
      · rw [if_neg (by omega), h.slots i, List.getElem?_eq_none (by omega)]
        rw [List.getElem?_eq_none (by simp only [List.length_append, List.length_singleton]; omega)]
    · rw [record_notified, hbm]
      simp [List.nodup_append, h.nodup, hr]
    · intro j
      rw [record_bm, record_notified, hbm]
      by_cases hj : j = r
      · simp [hj]
      · simp [hj, h.bits j]

theorem trackerInv_runRecord (s : G1EvacFailureRegions) (ids : List ℕ)
    (h : TrackerInv s) : TrackerInv (runRecord s ids) := by
  induction ids generalizing s with
  | nil => exact h
  | cons a t ih => exact ih _ (trackerInv_record s a h)

-- Run-level lemmas ------------------------------------------------------------

theorem recordResults_map_fst (s : G1EvacFailureRegions) (ids : List ℕ) :
    (recordResults s ids).map Prod.fst = ids := by
  induction ids generalizing s with
  | nil => rfl
  | cons a t ih => simp [recordResults, ih]

theorem runRecord_bm (s : G1EvacFailureRegions) (ids : List ℕ) (j : ℕ) :
    (runRecord s ids).regions_failed_evacuation j =
      (s.regions_failed_evacuation j || decide (j ∈ ids)) := by
  induction ids generalizing s with
  | nil => simp [runRecord]
  | cons a t ih =>
    rw [runRecord, ih, record_bm]
    by_cases hj : j = a <;> simp [hj, List.mem_cons]

theorem runRecord_notified (s : G1EvacFailureRegions) (ids : List ℕ) :
    (runRecord s ids).notified =
      s.notified ++ ((recordResults s ids).filter (fun p => p.2)).map Prod.fst := by
  induction ids generalizing s with
  | nil => simp [runRecord, recordResults]
  | cons a t ih =>
    rw [runRecord, ih, record_notified]
    by_cases hb : s.regions_failed_evacuation a <;>
      simp [hb, recordResults, List.filter_cons, record_fst]

theorem countP_true_results (s : G1EvacFailureRegions) (ids : List ℕ) (r : ℕ) :
    (recordResults s ids).countP (fun p => decide (p.1 = r) && p.2) =
      if s.regions_failed_evacuation r = false ∧ r ∈ ids then 1 else 0 := by
  induction ids generalizing s with
  | nil => simp [recordResults]
  | cons a t ih =>
    simp only [recordResults, List.countP_cons, ih, record_bm, record_fst]
    by_cases hra : r = a
    · subst hra
      by_cases hb : s.regions_failed_evacuation r <;> simp [hb]
    · by_cases hb : s.regions_failed_evacuation r <;>
        by_cases hrt : r ∈ t <;>
          simp [hb, hrt, hra, Ne.symm hra, List.mem_cons]

theorem countP_split_results (s : G1EvacFailureRegions) (ids : List ℕ) (r : ℕ) :
    (recordResults s ids).countP (fun p => decide (p.1 = r) && p.2) +
      (recordResults s ids).countP (fun p => decide (p.1 = r) && !p.2) =
        ids.count r := by
  induction ids generalizing s with
  | nil => simp [recordResults]
  | cons a t ih =>
    have h := ih (s.record a).2
    simp only [recordResults, List.countP_cons, List.count_cons]
    by_cases hra : a = r
    · subst hra
      cases hb : (s.record a).1 <;> simp [hb] <;> omega
    · simp [hra, Ne.symm hra]
      omega

theorem runRecord_notified_count (s : G1EvacFailureRegions) (ids : List ℕ) (r : ℕ) :
    (runRecord s ids).notified.count r =
      s.notified.count r +
        (recordResults s ids).countP (fun p => decide (p.1 = r) && p.2) := by
  induction ids generalizing s with
  | nil => simp [runRecord, recordResults]
  | cons a t ih =>
    rw [runRecord, ih]
    simp only [recordResults, List.countP_cons]
    rw [record_notified]
    by_cases hb : s.regions_failed_evacuation a
    · simp [hb, record_fst]
    · by_cases hra : a = r
      · subst hra
        simp [hb, record_fst, List.count_append, List.count_singleton]
        omega
      · simp [hb, hra, record_fst, List.count_append, List.count_singleton,
          Ne.symm hra]

theorem notified_subset_ids (ids : List ℕ) :
    ∀ x ∈ (runRecord initialState ids).notified, x ∈ ids := by
  intro x hx
  rw [runRecord_notified] at hx
  simp only [initialState, List.nil_append] at hx
  have h1 : x ∈ (recordResults initialState ids).map Prod.fst := by
    rcases List.mem_map.mp hx with ⟨p, hp, rfl⟩
    exact List.mem_map.mpr ⟨p, List.mem_of_mem_filter hp, rfl⟩
  rwa [recordResults_map_fst] at h1

theorem runRecord_len_le (max_regions : ℕ) (ids : List ℕ)
    (h : ∀ r ∈ ids, r < max_regions) :
    (runRecord initialState ids).evac_failure_regions_cur_length ≤ max_regions := by
  have hinv := trackerInv_runRecord initialState ids trackerInv_initialState
  rw [hinv.len_eq]
  have hsub : (runRecord initialState ids).notified.toFinset ⊆
      Finset.range max_regions := by
    intro x hx
    rw [List.mem_toFinset] at hx
    exact Finset.mem_range.mpr (h x (notified_subset_ids ids x hx))
  calc (runRecord initialState ids).notified.length
      = (runRecord initialState ids).notified.toFinset.card :=
        (List.toFinset_card_of_nodup hinv.nodup).symm
    _ ≤ (Finset.range max_regions).card := Finset.card_le_card hsub
    _ = max_regions := Finset.card_range _

theorem failedSeq_eq_notified (s : G1EvacFailureRegions) (h : TrackerInv s) :
    failedSeq s = s.notified := by
  unfold failedSeq
  rw [h.len_eq]
  apply List.ext_getElem
  · simp
  · intro i h1 h2
    rw [List.getElem_map, List.getElem_range, h.slots i,
      List.getElem?_eq_getElem h2]
    rfl

theorem list_getElem?_isSome_iff {α : Type} (l : List α) (i : ℕ) :
    l[i]?.isSome = true ↔ i < l.length := by
  constructor
  · intro h
    by_contra hlt
    rw [List.getElem?_eq_none (by omega)] at h
    simp at h
  · intro h
    rw [List.getElem?_eq_getElem h]
    rfl

-- Claim theorems --------------------------------------------------------------

/-- C1: for every tracker state and region id `r`, `record(r)` returns `true`
iff the presence bit for `r` was clear immediately before the call (this call
performs the false-to-true transition), and returns `false` iff the bit was
already set. -/
theorem g1_C1 (s : G1EvacFailureRegions) (r : ℕ) :
    ((s.record r).1 = true ↔ s.regions_failed_evacuation r = false) ∧
    ((s.record r).1 = false ↔ s.regions_failed_evacuation r = true) := by
  rw [record_fst]
  cases h : s.regions_failed_evacuation r <;> simp

/-- C2: in any linearization of a Recording phase in which `record` is
invoked `N ≥ 1` times with region id `r`, exactly one of those invocations
returns `true` and the other `N − 1` return `false`. -/
theorem g1_C2 (ids : List ℕ) (r N : ℕ) (hN : N = ids.count r) (h1 : 1 ≤ N) :
    (recordResults initialState ids).countP
        (fun p => decide (p.1 = r) && p.2) = 1 ∧
    (recordResults initialState ids).countP
        (fun p => decide (p.1 = r) && !p.2) = N - 1 := by
  have hmem : r ∈ ids := by
    exact List.count_pos_iff.mp (by omega : 0 < ids.count r)
  have ht := countP_true_results initialState ids r
  rw [if_pos ⟨rfl, hmem⟩] at ht
  have hs := countP_split_results initialState ids r
  exact ⟨ht, by omega⟩

theorem g1_C2_witness :
    ((2 : ℕ) = [0, 2, 2, 1].count 2 ∧ 1 ≤ 2) ∧
    ((recordResults initialState [0, 2, 2, 1]).countP
        (fun p => decide (p.1 = 2) && p.2) = 1 ∧
     (recordResults initialState [0, 2, 2, 1]).countP
        (fun p => decide (p.1 = 2) && !p.2) = 2 - 1) :=
  ⟨⟨by decide, by decide⟩, g1_C2 [0, 2, 2, 1] 2 2 (by decide) (by decide)⟩

/-- C3: a winning `record(r)` stores `r` into the append log at the slot
index equal to the pre-increment cursor value, increments the cursor, and
delivers the `note_evacuation_failure` notification exactly once before
returning; a losing call delivers no notification; over a whole Recording
phase each region is notified once per winning call for it, i.e. once if it
appears among the calls and never otherwise. -/
theorem g1_C3 (s : G1EvacFailureRegions) (r : ℕ) (ids : List ℕ) :
    ((s.record r).2.evac_failure_regions s.evac_failure_regions_cur_length =
      if (s.record r).1 then some r
      else s.evac_failure_regions s.evac_failure_regions_cur_length) ∧
    ((s.record r).2.evac_failure_regions_cur_length =
      if (s.record r).1 then s.evac_failure_regions_cur_length + 1
      else s.evac_failure_regions_cur_length) ∧
    ((s.record r).2.notified =
      if (s.record r).1 then s.notified ++ [r] else s.notified) ∧
    ((runRecord initialState ids).notified.count r =
      (recordResults initialState ids).countP
        (fun p => decide (p.1 = r) && p.2)) ∧
    ((runRecord initialState ids).notified.count r =
      if r ∈ ids then 1 else 0) := by
  refine ⟨?_, ?_, ?_, ?_, ?_⟩
  · rw [record_slots, record_fst]
    cases h : s.regions_failed_evacuation r <;> simp
  · rw [record_len, record_fst]
    cases h : s.regions_failed_evacuation r <;> simp
  · rw [record_notified, record_fst]
    cases h : s.regions_failed_evacuation r <;> simp
  · have := runRecord_notified_count initialState ids r
    simpa [initialState] using this
  · have h1 := runRecord_notified_count initialState ids r
    have h2 := countP_true_results initialState ids r
    rw [h1, h2, show List.count r initialState.notified = 0 from rfl]
    by_cases hm : r ∈ ids <;>
      simp [hm, show initialState.regions_failed_evacuation r = false from rfl]

/-- C4: when the presence bit for `r` is already set, `record(r)` returns
`false` and has no further effect: the cursor, every append-log slot, and the
notification trace are unchanged. -/
theorem g1_C4 (s : G1EvacFailureRegions) (r : ℕ)
    (h : s.regions_failed_evacuation r = true) :
    (s.record r).1 = false ∧
    (s.record r).2.evac_failure_regions_cur_length =
      s.evac_failure_regions_cur_length ∧
    (∀ i, (s.record r).2.evac_failure_regions i = s.evac_failure_regions i) ∧
    (s.record r).2.notified = s.notified := by
  refine ⟨?_, by rw [record_lose_state s r h],
    fun i => by rw [record_lose_state s r h], by rw [record_lose_state s r h]⟩
  rw [record_fst, h]
  rfl

theorem g1_C4_witness :
    ((initialState.record 2).2.regions_failed_evacuation 2 = true) ∧
    (((initialState.record 2).2.record 2).1 = false ∧
     ((initialState.record 2).2.record 2).2.evac_failure_regions_cur_length =
       (initialState.record 2).2.evac_failure_regions_cur_length ∧
     (∀ i, ((initialState.record 2).2.record 2).2.evac_failure_regions i =
       (initialState.record 2).2.evac_failure_regions i) ∧
     ((initialState.record 2).2.record 2).2.notified =
       (initialState.record 2).2.notified) :=
  ⟨by decide, g1_C4 (initialState.record 2).2 2 (by decide)⟩

/-- C5: after any sequence of `record` calls within one Recording phase, the
failed-region sequence (the append-log entries at indices `[0, length)`)
contains each region id at most once. -/
theorem g1_C5 (ids : List ℕ) :
    (failedSeq (runRecord initialState ids)).Nodup := by
  have hinv := trackerInv_runRecord initialState ids trackerInv_initialState
  rw [failedSeq_eq_notified _ hinv]
  exact hinv.nodup

/-- C6: after a Recording phase completes, with `K` the number of distinct
region ids for which some `record` call returned `true`, the written
append-log slots are exactly the indices `[0, K)` with no gaps, and the
cursor equals `K`. -/
theorem g1_C6 (ids : List ℕ) :
    ((runRecord initialState ids).evac_failure_regions_cur_length =
      (((recordResults initialState ids).filter
        (fun p => p.2)).map Prod.fst).dedup.length) ∧
    ∀ i, ((runRecord initialState ids).evac_failure_regions i).isSome = true ↔
      i < (((recordResults initialState ids).filter
        (fun p => p.2)).map Prod.fst).dedup.length := by
  have hinv := trackerInv_runRecord initialState ids trackerInv_initialState
  have hw : (runRecord initialState ids).notified =
      ((recordResults initialState ids).filter (fun p => p.2)).map Prod.fst := by
    have h := runRecord_notified initialState ids
    rw [show initialState.notified = [] from rfl, List.nil_append] at h
    exact h
  have hded : (((recordResults initialState ids).filter
      (fun p => p.2)).map Prod.fst).dedup =
      ((recordResults initialState ids).filter (fun p => p.2)).map Prod.fst :=
    List.dedup_eq_self.mpr (hw ▸ hinv.nodup)
  rw [hded, ← hw, ← hinv.len_eq]
  refine ⟨rfl, fun i => ?_⟩
  rw [hinv.slots i, hinv.len_eq]
  exact list_getElem?_isSome_iff _ i

/-- C7: when every recorded region id is below `max_regions` (the append
log's capacity), the cursor never exceeds `max_regions` at any point of the
phase, and every append-log slot ever written is at an in-bounds index. -/
theorem g1_C7 (max_regions : ℕ) (ids : List ℕ)
    (h : ∀ r ∈ ids, r < max_regions) :
    (∀ n, (runRecord initialState
        (ids.take n)).evac_failure_regions_cur_length ≤ max_regions) ∧
    ∀ i, ((runRecord initialState ids).evac_failure_regions i).isSome = true →
      i < max_regions := by
  constructor
  · intro n
    exact runRecord_len_le max_regions (ids.take n)
      fun r hr => h r (List.take_subset n ids hr)
  · intro i hi
    have hinv := trackerInv_runRecord initialState ids trackerInv_initialState
    rw [hinv.slots i] at hi
    have hlt : i < (runRecord initialState ids).notified.length :=
      (list_getElem?_isSome_iff _ i).mp hi
    have hlen := runRecord_len_le max_regions ids h
    rw [hinv.len_eq] at hlen
    omega

theorem g1_C7_witness :
    (∀ r ∈ [0, 1, 2, 1], r < (4 : ℕ)) ∧
    ((∀ n, (runRecord initialState
        ([0, 1, 2, 1].take n)).evac_failure_regions_cur_length ≤ 4) ∧
     ∀ i, ((runRecord initialState [0, 1, 2, 1]).evac_failure_regions i).isSome
        = true → i < 4) :=
  ⟨by decide, g1_C7 4 [0, 1, 2, 1] (by decide)⟩

/-- C8: after `reset()`, `count()` is 0, `has_failed_regions()` is `false`,
and every region id can again win a fresh claim: a subsequent `record(r)`
returns `true`. -/
theorem g1_C8 (s : G1EvacFailureRegions) :
    s.reset.count = 0 ∧ s.reset.has_failed_regions = false ∧
    ∀ r, (s.reset.record r).1 = true := by
  refine ⟨rfl, rfl, fun r => ?_⟩
  rw [record_fst]
  rfl

/-- C9: after `record(r)` returns (winning or losing) the presence bit for
`r` is set; a `record` call never clears any bit (the bit for `j` after the
call is its old value or-ed with whether `j = r`), and across a whole run the
bit for `j` is its old value or-ed with whether `j` was recorded, so each bit
transitions false-to-true at most once per pause and stays set until reset. -/
theorem g1_C9 (s : G1EvacFailureRegions) (r j : ℕ) (ids : List ℕ) :
    ((s.record r).2.regions_failed_evacuation r = true) ∧
    ((s.record r).2.regions_failed_evacuation j =
      (s.regions_failed_evacuation j || decide (j = r))) ∧
    ((runRecord s ids).regions_failed_evacuation j =
      (s.regions_failed_evacuation j || decide (j ∈ ids))) := by
  refine ⟨?_, ?_, runRecord_bm s ids j⟩
  · rw [record_bm]
    simp
  · rw [record_bm]
    by_cases hj : j = r <;> simp [hj]

/-- C10: `record` is idempotent after its first invocation per region:
calling `record(r)` again immediately returns `false` and leaves the entire
tracker state (bitmap, cursor, append log, notification trace) exactly as
after the first call. -/
theorem g1_C10 (s : G1EvacFailureRegions) (r : ℕ) :
    ((s.record r).2.record r).1 = false ∧
    ((s.record r).2.record r).2 = (s.record r).2 := by
  have hb : (s.record r).2.regions_failed_evacuation r = true := by
    rw [record_bm]
    simp
  refine ⟨?_, record_lose_state _ r hb⟩
  rw [record_fst, hb]
  rfl
